import Mathlib

/-!
Verification of the Resource Detection & Download Coordination subsystem
of the PixelSeek browser extension.

The definitions below are a shallow embedding of
`src/extension/chrome/src/background/background.js` (registry map, network
interceptor, content-script message handler, filename deriver, download
handler, notification fan-out) and of the page-observer logic in
`src/extension/chrome/src/shared/models/video.model.ts`
(`checkVideosOnPage` and its `data-pixelseek-listener` tagging).

JavaScript strings are modelled as Lean `String`s; the string operations
used by the code (`endsWith`, `startsWith`, `toLowerCase`, `split`) are
modelled by structurally recursive functions on the underlying `List Char`.
`new URL(url)` is modelled by `parseURL`, which follows the WHATWG parser
on the fragment of URL syntax the extension encounters: a scheme, an
optional `//authority`, a path, and an optional query/fragment, with
parse failure returned as `none` (the JS code catches the thrown error).
-/

namespace PixelSeek

/-- Model of JavaScript `s.startsWith(pat)` on character lists. -/
def startsWithList : List Char → List Char → Bool
  | _, [] => true
  | [], _ :: _ => false
  | x :: xs, y :: ys => if x = y then startsWithList xs ys else false

/-- Model of JavaScript `s.endsWith(pat)` on character lists. -/
def endsWithList (l pat : List Char) : Bool :=
  startsWithList l.reverse pat.reverse

/-- JavaScript `s.endsWith(pat)`. -/
def strEndsWith (s pat : String) : Bool := endsWithList s.data pat.data

/-- JavaScript `s.startsWith(pat)`. -/
def strStartsWith (s pat : String) : Bool := startsWithList s.data pat.data

/-- JavaScript `s.toLowerCase()` (ASCII, which is all the code relies on). -/
def lowerString (s : String) : String := String.mk (s.data.map Char.toLower)

/-- JavaScript `s.split(sep)` for a single-character separator. -/
def splitChar (c : Char) : List Char → List (List Char)
  | [] => [[]]
  | x :: xs =>
    match splitChar c xs with
    | [] => [[]]
    | r :: rs => if x = c then [] :: r :: rs else (x :: r) :: rs

/-- Splits a character list at the first character satisfying `p`:
returns the prefix before it and the remainder (including it). -/
def takeUntil (p : Char → Bool) : List Char → List Char × List Char
  | [] => ([], [])
  | x :: xs =>
    if p x then ([], x :: xs)
    else
      let r := takeUntil p xs
      (x :: r.1, r.2)

def isAsciiAlpha (c : Char) : Bool :=
  (('a' ≤ c) && (c ≤ 'z')) || (('A' ≤ c) && (c ≤ 'Z'))

def isSchemeChar (c : Char) : Bool :=
  isAsciiAlpha c || c.isDigit || c = '+' || c = '-' || c = '.'

/-- The part of a parsed URL that `getFilenameFromUrl` reads. -/
structure URLParts where
  pathname : String
  deriving DecidableEq, Repr

/-- Model of JavaScript `new URL(url)` restricted to the `pathname`
component. Returns `none` where the constructor would throw: no scheme,
malformed scheme, or an empty authority after `//`. As in the WHATWG
parser, a URL with an authority and an empty path has pathname `"/"`,
and query (`?`) and fragment (`#`) components are not part of the
pathname. -/
def parseURL (u : String) : Option URLParts :=
  match takeUntil (fun c => c = ':') u.data with
  | (scheme, ':' :: rest) =>
    match scheme with
    | [] => none
    | c0 :: cs =>
      if isAsciiAlpha c0 && cs.all isSchemeChar then
        match rest with
        | '/' :: '/' :: rest2 =>
          match takeUntil (fun c => c = '/' || c = '?' || c = '#') rest2 with
          | ([], _) => none
          | (_ :: _, rest3) =>
            match rest3 with
            | '/' :: _ =>
              some ⟨String.mk (takeUntil (fun c => c = '?' || c = '#') rest3).1⟩
            | _ => some ⟨"/"⟩
        | _ => some ⟨String.mk (takeUntil (fun c => c = '?' || c = '#') rest).1⟩
      else none
  | _ => none

/-- `VIDEO_EXTENSIONS` from `background.js`. -/
def VIDEO_EXTENSIONS : List String := [".mp4", ".webm", ".m3u8", ".ts"]

/-- `pathname.split('/').pop() || 'video'` from `getFilenameFromUrl`. -/
def lastSegmentOrVideo (segs : List (List Char)) : List Char :=
  match segs.getLast? with
  | none => "video".data
  | some s => if s.isEmpty then "video".data else s

/-- JavaScript array indexing `[0]` on a split result. -/
def headOrNil : List (List Char) → List Char
  | [] => []
  | x :: _ => x

/-- The filename candidate built by `getFilenameFromUrl` before the
extension check: last path segment (or `"video"`), query part stripped. -/
def cleanedSegment (parts : URLParts) : List Char :=
  headOrNil (splitChar '?' (lastSegmentOrVideo (splitChar '/' parts.pathname.data)))

/-- `VIDEO_EXTENSIONS.some(ext => filename.endsWith(ext))`. -/
def hasVideoExt (fname : List Char) : Bool :=
  VIDEO_EXTENSIONS.any (fun e => endsWithList fname e.data)

/-- The success path of `getFilenameFromUrl`: append `".mp4"` unless the
cleaned segment already ends in a recognized extension. -/
def filenameFromParts (parts : URLParts) : String :=
  let fname := cleanedSegment parts
  if hasVideoExt fname then String.mk fname
  else String.mk (fname ++ ".mp4".data)

/-- `getFilenameFromUrl` from `background.js`: parse the URL, take the
final path segment (generic `"video"` if empty), strip any query part,
and append `".mp4"` unless the segment already ends in a recognized
extension; any parse error yields `"video.mp4"`. -/
def getFilenameFromUrl (url : String) : String :=
  match parseURL url with
  | none => "video.mp4"
  | some parts => filenameFromParts parts

/-! ## Registry data model -/

/-- `dimensions` of a page-reported video. -/
structure Dimensions where
  width : Nat
  height : Nat
  deriving DecidableEq, Repr

/-- A record of `videoUrlStore` (`VideoInfo` in
`src/extension/chrome/src/shared/models/video.model.ts`). Network-layer
records leave `duration`/`dimensions` absent; page-context records carry
what the message supplied. -/
structure VideoInfo where
  url : String
  tabId : Option Int
  timestamp : Nat
  type : String
  filename : String
  duration : Option Nat := none
  dimensions : Option Dimensions := none
  deriving DecidableEq, Repr

/-- `videoUrlStore`: a JavaScript `Map` keyed by URL, modelled as an
insertion-ordered association list with unique keys. -/
abbrev Store := List (String × VideoInfo)

/-- JavaScript `Map.prototype.set`: replace the value in place if the key
is present (keeping its position), otherwise append a new entry. -/
def mapSet : Store → String → VideoInfo → Store
  | [], k, v => [(k, v)]
  | (k', v') :: rest, k, v =>
    if k' = k then (k, v) :: rest else (k', v') :: mapSet rest k v

/-- JavaScript `Map.prototype.get`. -/
def mapGet : Store → String → Option VideoInfo
  | [], _ => none
  | (k', v') :: rest, k => if k' = k then some v' else mapGet rest k

/-- `Array.from(videoUrlStore.values())`, as returned by the
`get_videos` message handler. -/
def getVideos : Store → List VideoInfo
  | [] => []
  | (_, v) :: rest => v :: getVideos rest

/-- `chrome.runtime.sendMessage` fan-out of a `video_detected`
notification: each attached subscriber receives the record; with no
subscribers the rejection is swallowed by the empty `.catch` handler, so
delivery is simply empty and nothing fails. -/
def notifyVideoDetected (subscribers : List Nat) (vi : VideoInfo) :
    List (Nat × VideoInfo) :=
  subscribers.map (fun s => (s, vi))

/-! ## Network interceptor (`chrome.webRequest.onBeforeRequest` listener) -/

/-- The fields of the `details` object that the listener reads. -/
structure RequestDetails where
  url : String
  tabId : Int
  type : String
  initiator : Option String
  deriving DecidableEq, Repr

/-- `details.initiator && details.initiator.startsWith('chrome-extension://')`. -/
def isSelfRequest (d : RequestDetails) : Bool :=
  match d.initiator with
  | some i => strStartsWith i "chrome-extension://"
  | none => false

/-- `VIDEO_EXTENSIONS.some(ext => url.endsWith(ext))` on the lowercased
URL, or `details.type === 'media'`. -/
def classifiesMedia (d : RequestDetails) : Bool :=
  VIDEO_EXTENSIONS.any (fun e => strEndsWith (lowerString d.url) e)
    || d.type == "media"

/-- The `videoInfo` object built by the network listener. -/
def networkVideoInfo (d : RequestDetails) (now : Nat) : VideoInfo :=
  { url := d.url
    tabId := some d.tabId
    timestamp := now
    type := d.type
    filename := getFilenameFromUrl d.url }

/-- The `onBeforeRequest` listener body: skip self-originated requests;
otherwise, when the lowercased URL has a video extension or the type hint
is `media`, store the record under its URL and emit a notification.
Returns the new store and the notification payload (if any). -/
def onBeforeRequest (store : Store) (d : RequestDetails) (now : Nat) :
    Store × Option VideoInfo :=
  if isSelfRequest d then (store, none)
  else if classifiesMedia d then
    let vi := networkVideoInfo d now
    (mapSet store d.url vi, some vi)
  else (store, none)

/-! ## Page-context feed (`video_detected_in_page` message handler) -/

/-- The fields of a `video_detected_in_page` message that the handler
reads. -/
structure PageMessage where
  url : String
  duration : Option Nat
  dimensions : Option Dimensions
  deriving DecidableEq, Repr

/-- The `videoInfo` object built by the `video_detected_in_page`
handler. -/
def pageVideoInfo (m : PageMessage) (senderTabId : Option Int) (now : Nat) :
    VideoInfo :=
  { url := m.url
    tabId := senderTabId
    timestamp := now
    type := "content_script"
    filename := getFilenameFromUrl m.url
    duration := m.duration
    dimensions := m.dimensions }

/-- The `video_detected_in_page` branch of the message handler: store the
record under its URL and emit a notification. -/
def onPageMessage (store : Store) (m : PageMessage) (senderTabId : Option Int)
    (now : Nat) : Store × Option VideoInfo :=
  let vi := pageVideoInfo m senderTabId now
  (mapSet store m.url vi, some vi)

/-- A detection event from either feed, with the data each handler
reads. -/
inductive DetectionEvent where
  | network (d : RequestDetails)
  | page (m : PageMessage) (senderTabId : Option Int)
  deriving DecidableEq, Repr

/-- Dispatch one detection event to the corresponding handler. -/
def stepEvent (store : Store) (e : DetectionEvent) (now : Nat) :
    Store × Option VideoInfo :=
  match e with
  | .network d => onBeforeRequest store d now
  | .page m t => onPageMessage store m t now

/-- Run a sequence of timestamped detection events against the initially
empty store (as after `videoUrlStore.clear()`). -/
def runEvents (events : List (DetectionEvent × Nat)) : Store :=
  events.foldl (fun st en => (stepEvent st en.1 en.2).1) []

/-! ## Download coordinator (`download_video` message handler) -/

/-- The argument object passed to `chrome.downloads.download`. -/
structure DownloadCall where
  url : String
  filename : String
  saveAs : Bool
  deriving DecidableEq, Repr

/-- The object passed to `sendResponse` by the `download_video` branch. -/
structure DownloadResponse where
  success : Bool
  downloadId : Option Nat
  error : Option String
  deriving DecidableEq, Repr

/-- `message.filename || getFilenameFromUrl(message.url)`: an absent or
empty suggested name falls back to the filename deriver. -/
def effectiveFilename (url : String) (suggested : Option String) : String :=
  match suggested with
  | some s => if s = "" then getFilenameFromUrl url else s
  | none => getFilenameFromUrl url

/-- The `download_video` branch of the message handler. The host
platform's outcome is passed in as `platform` (a download id, or the
rejection's `error.message`). Returns the (untouched) store, the list of
calls made to `chrome.downloads.download` — the branch makes exactly one,
with `saveAs: true`, and never re-dispatches — and the response sent back
to the caller. -/
def handleDownloadVideo (store : Store) (url : String)
    (suggested : Option String) (platform : Except String Nat) :
    Store × List DownloadCall × DownloadResponse :=
  let call : DownloadCall := ⟨url, effectiveFilename url suggested, true⟩
  match platform with
  | .ok id => (store, [call], ⟨true, some id, none⟩)
  | .error msg => (store, [call], ⟨false, none, some msg⟩)

/-! ## Page observer (`checkVideosOnPage` in `video.model.ts`) -/

/-- The state of one `<video>` element that `checkVideosOnPage` reads and
writes: its resolved source (`currentSrc || src`, `none` while unset),
whether the `data-pixelseek-listener` attribute is present, and how many
`loadedmetadata` listeners the observer has attached to it. -/
structure PageVideo where
  src : Option String
  tagged : Bool
  listeners : Nat
  deriving DecidableEq, Repr

/-- The per-element body of the `videos.forEach` loop: an element without
the `data-pixelseek-listener` attribute gets the attribute set and one
`loadedmetadata` listener attached; an already-tagged element is left
alone. -/
def scanVideoStep (v : PageVideo) : PageVideo :=
  if v.tagged then v
  else { v with tagged := true, listeners := v.listeners + 1 }

/-- One run of `checkVideosOnPage` over the page's video elements
(tagging side only). -/
def checkVideosOnPage (vs : List PageVideo) : List PageVideo :=
  vs.map scanVideoStep

/-- The detection messages emitted by one run of `checkVideosOnPage`:
one `video_detected_in_page` message per element with a resolvable
source. -/
def scanEmissions (vs : List PageVideo) : List String :=
  vs.filterMap (fun v => v.src)

/-- `n` successive runs of `checkVideosOnPage` (initial, mutation-triggered
and periodic rescans all invoke the same function). -/
def scanN : Nat → List PageVideo → List PageVideo
  | 0, vs => vs
  | n + 1, vs => scanN n (checkVideosOnPage vs)

/-- Firing the `loadedmetadata` event on an element: every attached
listener re-reads the element and emits a detection message if its source
has resolved. -/
def fireLoadedMetadata (v : PageVideo) : List String :=
  match v.src with
  | some u => List.replicate v.listeners u
  | none => []

/-! ## Invariants and sample values -/

/-- Store well-formedness: keys are pairwise distinct (a `Map` property)
and every record is keyed by its own URL (both handlers key the record by
the URL they store in it). -/
def WFStore (s : Store) : Prop :=
  (s.map Prod.fst).Nodup ∧ ∀ p ∈ s, (p.2).url = p.1

/-- A freshly created `<video>` element: no tag attribute, no listener. -/
abbrev FreshVideo (v : PageVideo) : Prop :=
  v.tagged = false ∧ v.listeners = 0

/-- Sample page detections for the same locator with different metadata. -/
def lwwMsgA : PageMessage := ⟨"https://v.test/a.mp4", some 10, some ⟨640, 480⟩⟩

def lwwMsgB : PageMessage := ⟨"https://v.test/a.mp4", none, none⟩

def lwwStore1 : Store := [("https://v.test/a.mp4", pageVideoInfo lwwMsgA (some 1) 5)]

def lwwStore2 : Store := [("https://v.test/a.mp4", pageVideoInfo lwwMsgB (some 2) 9)]

/-- Sample media-suffixed request with no streamed-media type hint. -/
def mediaRequest : RequestDetails :=
  ⟨"https://cdn.test/stream.m3u8", 7, "xmlhttprequest", none⟩

/-- Sample non-media request with no streamed-media type hint. -/
def pageRequest : RequestDetails :=
  ⟨"https://cdn.test/page.html", 7, "xmlhttprequest", none⟩

/-- Sample request self-originated by the extension. -/
def selfRequest : RequestDetails :=
  ⟨"https://cdn.test/stream.m3u8", 3, "media", some "chrome-extension://abcdef"⟩

/-- Sample page detection used with zero attached subscribers. -/
def lonePutMsg : PageMessage := ⟨"https://v.test/solo.webm", some 3, none⟩

def lonePutStore : Store :=
  [("https://v.test/solo.webm", pageVideoInfo lonePutMsg (some 4) 11)]

/-- A video element whose source is not yet set at scan time. -/
def latePageVideo : PageVideo := ⟨none, false, 0⟩

/-- A video element with a resolved source. -/
def readyPageVideo : PageVideo := ⟨some "https://v.test/b.mp4", false, 0⟩

def samplePageVideos : List PageVideo := [latePageVideo, readyPageVideo]

/-- Request whose final path segment ends in `.MP4` (uppercase). -/
def upperRequest : RequestDetails :=
  ⟨"https://x.test/A.MP4", 4, "xmlhttprequest", none⟩

/-- Request whose final path segment ends in `.MP4` but whose locator
carries a query string. -/
def upperQueryRequest : RequestDetails :=
  ⟨"https://x.test/A.MP4?t=1", 4, "xmlhttprequest", none⟩

/-! ## Helper lemmas -/

theorem startsWithList_self_append (pat t : List Char) :
    startsWithList (pat ++ t) pat = true := by
  induction pat with
  | nil => simp [startsWithList]
  | cons x xs ih => simp [startsWithList, ih]

theorem endsWithList_append_self (t pat : List Char) :
    endsWithList (t ++ pat) pat = true := by
  unfold endsWithList
  rw [List.reverse_append]
  exact startsWithList_self_append pat.reverse t.reverse

theorem startsWithList_nil_eq {q : List Char}
    (h : startsWithList [] q = true) : q = [] := by
  cases q with
  | nil => rfl
  | cons y ys => simp [startsWithList] at h

theorem endsWithList_ne_nil {l pat : List Char}
    (h : endsWithList l pat = true) (hp : pat ≠ []) : l ≠ [] := by
  intro hl
  subst hl
  unfold endsWithList at h
  have hq := startsWithList_nil_eq h
  apply hp
  have := congrArg List.reverse hq
  simpa using this

theorem String.mk_ne_empty {l : List Char} (h : l ≠ []) :
    String.mk l ≠ "" := by
  intro he
  exact h (congrArg String.data he)

theorem mapGet_mapSet_self (s : Store) (k : String) (v : VideoInfo) :
    mapGet (mapSet s k v) k = some v := by
  induction s with
  | nil => simp [mapSet, mapGet]
  | cons p rest ih =>
    obtain ⟨k', v'⟩ := p
    by_cases hk : k' = k
    · simp [mapSet, hk, mapGet]
    · simp [mapSet, hk, mapGet, ih]

theorem mapGet_mem_getVideos {s : Store} {k : String} {v : VideoInfo}
    (h : mapGet s k = some v) : v ∈ getVideos s := by
  induction s with
  | nil => simp [mapGet] at h
  | cons p rest ih =>
    obtain ⟨k', v'⟩ := p
    unfold mapGet at h
    by_cases hk : k' = k
    · rw [if_pos hk] at h
      rw [getVideos]
      exact List.mem_cons.mpr (Or.inl (Option.some.inj h).symm)
    · rw [if_neg hk] at h
      rw [getVideos]
      exact List.mem_cons.mpr (Or.inr (ih h))

theorem stepEvent_put {s s' : Store} {e : DetectionEvent} {n : Nat}
    {vi : VideoInfo} (h : stepEvent s e n = (s', some vi)) :
    s' = mapSet s vi.url vi := by
  cases e with
  | network d =>
    simp only [stepEvent, onBeforeRequest] at h
    by_cases hs : isSelfRequest d = true
    · rw [if_pos hs] at h
      injection h with h1 h2
      cases h2
    · rw [if_neg hs] at h
      by_cases hc : classifiesMedia d = true
      · rw [if_pos hc] at h
        injection h with h1 h2
        injection h2 with h3
        rw [← h1, ← h3]
        rfl
      · rw [if_neg hc] at h
        injection h with h1 h2
        cases h2
  | page m t =>
    simp only [stepEvent, onPageMessage] at h
    injection h with h1 h2
    injection h2 with h3
    rw [← h1, ← h3]
    rfl

theorem isSelfRequest_eq_false {d : RequestDetails}
    (hinit : ∀ i, d.initiator = some i →
      strStartsWith i "chrome-extension://" = false) :
    isSelfRequest d = false := by
  unfold isSelfRequest
  cases hi : d.initiator with
  | none => rfl
  | some i => exact hinit i hi

theorem onBeforeRequest_accept {d : RequestDetails}
    (hself : isSelfRequest d = false) (hc : classifiesMedia d = true)
    (store : Store) (now : Nat) :
    onBeforeRequest store d now
      = (mapSet store d.url (networkVideoInfo d now),
          some (networkVideoInfo d now)) := by
  unfold onBeforeRequest
  rw [hself, hc]
  simp

theorem onBeforeRequest_reject {d : RequestDetails}
    (hself : isSelfRequest d = false) (hc : classifiesMedia d = false)
    (store : Store) (now : Nat) :
    onBeforeRequest store d now = (store, none) := by
  unfold onBeforeRequest
  rw [hself, hc]
  simp

theorem mem_keys_mapSet (s : Store) (k : String) (v : VideoInfo)
    (k' : String) :
    k' ∈ (mapSet s k v).map Prod.fst ↔ k' ∈ s.map Prod.fst ∨ k' = k := by
  induction s with
  | nil => simp [mapSet]
  | cons p rest ih =>
    obtain ⟨k0, v0⟩ := p
    by_cases hk : k0 = k
    · subst hk
      simp [mapSet]
      tauto
    · simp [mapSet, hk, ih]
      tauto

theorem nodup_keys_mapSet {s : Store} (k : String) (v : VideoInfo)
    (h : (s.map Prod.fst).Nodup) : ((mapSet s k v).map Prod.fst).Nodup := by
  induction s with
  | nil => simp [mapSet]
  | cons p rest ih =>
    obtain ⟨k0, v0⟩ := p
    simp only [List.map_cons, List.nodup_cons] at h
    by_cases hk : k0 = k
    · subst hk
      simpa [mapSet] using h
    · rw [mapSet]
      rw [if_neg hk]
      simp only [List.map_cons, List.nodup_cons]
      refine ⟨?_, ih h.2⟩
      rw [mem_keys_mapSet]
      rintro (hmem | rfl)
      · exact h.1 hmem
      · exact hk rfl

theorem urls_mapSet {s : Store} {k : String} {v : VideoInfo}
    (h : ∀ p ∈ s, (p.2).url = p.1) (hv : v.url = k) :
    ∀ p ∈ mapSet s k v, (p.2).url = p.1 := by
  induction s with
  | nil =>
    intro p hp
    simp [mapSet] at hp
    subst hp
    exact hv
  | cons q rest ih =>
    obtain ⟨k0, v0⟩ := q
    intro p hp
    by_cases hk : k0 = k
    · subst hk
      rw [mapSet, if_pos rfl] at hp
      rcases List.mem_cons.mp hp with rfl | hmem
      · exact hv
      · exact h p (List.mem_cons.mpr (Or.inr hmem))
    · rw [mapSet, if_neg hk] at hp
      rcases List.mem_cons.mp hp with rfl | hmem
      · exact h _ (List.mem_cons.mpr (Or.inl rfl))
      · exact ih (fun q hq => h q (List.mem_cons.mpr (Or.inr hq))) p hmem

theorem WFStore_mapSet {s : Store} {k : String} {v : VideoInfo}
    (h : WFStore s) (hv : v.url = k) : WFStore (mapSet s k v) :=
  ⟨nodup_keys_mapSet k v h.1, urls_mapSet h.2 hv⟩

theorem WFStore_stepEvent {s : Store} (e : DetectionEvent) (n : Nat)
    (h : WFStore s) : WFStore (stepEvent s e n).1 := by
  cases hq : (stepEvent s e n).2 with
  | none =>
    cases e with
    | network d =>
      simp only [stepEvent, onBeforeRequest] at hq ⊢
      by_cases hs : isSelfRequest d = true
      · simpa [hs] using h
      · by_cases hc : classifiesMedia d = true
        · simp [hs, hc] at hq
        · simpa [hs, hc] using h
    | page m t => simp [stepEvent, onPageMessage] at hq
  | some vi =>
    have hput : (stepEvent s e n).1 = mapSet s vi.url vi :=
      stepEvent_put (Prod.ext rfl hq)
    rw [hput]
    exact WFStore_mapSet h rfl

theorem WFStore_runEvents (events : List (DetectionEvent × Nat)) :
    WFStore (runEvents events) := by
  have hgen : ∀ (s : Store), WFStore s →
      WFStore (events.foldl (fun st en => (stepEvent st en.1 en.2).1) s) := by
    induction events with
    | nil => intro s hs; exact hs
    | cons en rest ih =>
      intro s hs
      exact ih _ (WFStore_stepEvent en.1 en.2 hs)
  exact hgen [] ⟨List.nodup_nil, by simp⟩

theorem getVideos_eq_map (s : Store) : getVideos s = s.map Prod.snd := by
  induction s with
  | nil => rfl
  | cons p rest ih =>
    obtain ⟨k, v⟩ := p
    rw [getVideos, ih, List.map_cons]

theorem WFStore_pairwise_urls {s : Store} (h : WFStore s) :
    (getVideos s).Pairwise (fun a b => a.url ≠ b.url) := by
  rw [getVideos_eq_map, List.pairwise_map]
  have hkeys : s.Pairwise (fun p q => p.1 ≠ q.1) := by
    have hnd : (s.map Prod.fst).Pairwise (fun a b => a ≠ b) := h.1
    exact List.pairwise_map.mp hnd
  refine hkeys.imp_of_mem ?_
  intro p q hp hq hne
  rw [h.2 p hp, h.2 q hq]
  exact hne

/-! ## Page-observer lemmas -/

theorem scanVideoStep_of_tagged {v : PageVideo} (h : v.tagged = true) :
    scanVideoStep v = v := by
  unfold scanVideoStep
  rw [h]
  simp

theorem checkVideosOnPage_tagged (vs : List PageVideo) :
    ∀ v ∈ checkVideosOnPage vs, v.tagged = true := by
  intro v hv
  rcases List.mem_map.mp hv with ⟨w, _, rfl⟩
  unfold scanVideoStep
  by_cases hw : w.tagged = true
  · simp [hw]
  · simp [hw]

theorem checkVideosOnPage_of_all_tagged {vs : List PageVideo}
    (h : ∀ v ∈ vs, v.tagged = true) : checkVideosOnPage vs = vs := by
  induction vs with
  | nil => rfl
  | cons v rest ih =>
    unfold checkVideosOnPage at ih ⊢
    rw [List.map_cons, scanVideoStep_of_tagged (h v (List.mem_cons_self v rest)),
      ih (fun w hw => h w (List.mem_cons.mpr (Or.inr hw)))]

theorem scanN_of_all_tagged {vs : List PageVideo}
    (h : ∀ v ∈ vs, v.tagged = true) : ∀ n, scanN n vs = vs := by
  intro n
  induction n with
  | zero => rfl
  | succ m ih =>
    rw [scanN, checkVideosOnPage_of_all_tagged h]
    exact ih

theorem checkVideosOnPage_fresh {vs : List PageVideo}
    (h : ∀ v ∈ vs, FreshVideo v) :
    ∀ v ∈ checkVideosOnPage vs, v.tagged = true ∧ v.listeners = 1 := by
  intro v hv
  rcases List.mem_map.mp hv with ⟨w, hw, rfl⟩
  obtain ⟨ht, hl⟩ := h w hw
  unfold scanVideoStep
  rw [ht]
  simp [hl]

/-! ## Claim theorems -/

/-- Claim C1: for every locator `L` and any two successive `put`
operations `put(A)` then `put(A')` where both records have locator `L`
(from either detection feed), the record subsequently visible to readers
equals `A'` exactly: no field (duration, dimensions, source kind, origin
tab, detection time, display name) is carried over or merged from the
earlier record `A`. -/
theorem registry_last_writer_wins
    (store s1 s2 : Store) (e1 e2 : DetectionEvent) (n1 n2 : Nat)
    (A A' : VideoInfo) (L : String)
    (h1 : stepEvent store e1 n1 = (s1, some A)) (hA : A.url = L)
    (h2 : stepEvent s1 e2 n2 = (s2, some A')) (hA' : A'.url = L) :
    mapGet s2 L = some A'
    ∧ A' ∈ getVideos s2
    ∧ ∀ r, mapGet s2 L = some r →
        r.duration = A'.duration ∧ r.dimensions = A'.dimensions
        ∧ r.type = A'.type ∧ r.tabId = A'.tabId
        ∧ r.timestamp = A'.timestamp ∧ r.filename = A'.filename := by
  have hput := stepEvent_put h2
  rw [hA'] at hput
  have hget : mapGet s2 L = some A' := by
    rw [hput]
    exact mapGet_mapSet_self s1 L A'
  refine ⟨hget, mapGet_mem_getVideos hget, ?_⟩
  intro r hr
  rw [hget] at hr
  injection hr with hr
  subst hr
  exact ⟨rfl, rfl, rfl, rfl, rfl, rfl⟩

/-- Claim C1 witness: two concrete page-feed detections for the same
locator; the surviving record is exactly the second one. -/
theorem registry_last_writer_wins_witness :
    mapGet lwwStore2 "https://v.test/a.mp4"
        = some (pageVideoInfo lwwMsgB (some 2) 9)
    ∧ pageVideoInfo lwwMsgB (some 2) 9 ∈ getVideos lwwStore2 := by
  have h := registry_last_writer_wins [] lwwStore1 lwwStore2
      (.page lwwMsgA (some 1)) (.page lwwMsgB (some 2)) 5 9
      (pageVideoInfo lwwMsgA (some 1) 5) (pageVideoInfo lwwMsgB (some 2) 9)
      "https://v.test/a.mp4" (by decide) rfl (by decide) rfl
  exact ⟨h.1, h.2.1⟩

/-- Claim C2: the Filename Deriver is deterministic, total and
side-effect-free (it is a pure Lean function): for every locator string —
including the empty string, query-only locators, unparseable locators and
paths with no extension — it returns a non-empty name ending in one of
`.mp4`, `.webm`, `.m3u8`, `.ts`; in particular it maps
`"https://x.test/a/clip?token=9"` to `"clip.mp4"` and `"https://x.test/"`
to `"video.mp4"`. -/
theorem filename_deriver_total :
    (∀ url : String,
        getFilenameFromUrl url ≠ ""
        ∧ VIDEO_EXTENSIONS.any
            (fun e => strEndsWith (getFilenameFromUrl url) e) = true)
    ∧ getFilenameFromUrl "https://x.test/a/clip?token=9" = "clip.mp4"
    ∧ getFilenameFromUrl "https://x.test/" = "video.mp4" := by
  refine ⟨fun url => ?_, by decide, by decide⟩
  have hparts : ∀ parts : URLParts,
      filenameFromParts parts ≠ ""
      ∧ VIDEO_EXTENSIONS.any
          (fun e => strEndsWith (filenameFromParts parts) e) = true := by
    intro parts
    unfold filenameFromParts
    by_cases hv : hasVideoExt (cleanedSegment parts) = true
    · rw [if_pos hv]
      have hex := hv
      unfold hasVideoExt at hex
      rw [List.any_eq_true] at hex
      obtain ⟨e, he, hend⟩ := hex
      have hnonempty : ∀ x ∈ VIDEO_EXTENSIONS, x.data ≠ [] := by decide
      have hfne : cleanedSegment parts ≠ [] :=
        endsWithList_ne_nil hend (hnonempty e he)
      exact ⟨String.mk_ne_empty hfne, hv⟩
    · rw [if_neg hv]
      constructor
      · apply String.mk_ne_empty
        simp
      · rw [List.any_eq_true]
        refine ⟨".mp4", by decide, ?_⟩
        show endsWithList (cleanedSegment parts ++ ".mp4".data) ".mp4".data = true
        exact endsWithList_append_self _ _
  unfold getFilenameFromUrl
  cases hp : parseURL url with
  | none => exact ⟨by decide, by decide⟩
  | some parts => exact hparts parts

/-- Claim C3: for every sequence of `put` calls from either detection
feed, `getAll()` returns at most one record per distinct locator, and the
registry never holds two records keyed by the same locator. -/
theorem registry_uniqueness (events : List (DetectionEvent × Nat)) :
    ((runEvents events).map Prod.fst).Nodup
    ∧ (getVideos (runEvents events)).Pairwise (fun a b => a.url ≠ b.url) :=
  ⟨(WFStore_runEvents events).1,
    WFStore_pairwise_urls (WFStore_runEvents events)⟩

/-- Claim C4: for a request not originated by the add-on itself, the
Network Interceptor accepts the request (stores the record and emits a
notification) if and only if the locator ends with one of the recognized
suffixes `.mp4`, `.webm`, `.m3u8`, `.ts` (checked, as the interceptor
does, on the lowercased locator) or the platform type hint marks it as
streamed media; otherwise nothing is stored or notified. In particular a
locator ending in `stream.m3u8` is accepted and one ending in `page.html`
with no streamed-media hint is rejected with no `put`. -/
theorem interceptor_classification
    (store : Store) (d : RequestDetails) (now : Nat)
    (hinit : ∀ i, d.initiator = some i →
      strStartsWith i "chrome-extension://" = false) :
    (onBeforeRequest store d now
        = (mapSet store d.url (networkVideoInfo d now),
            some (networkVideoInfo d now))
      ↔ (VIDEO_EXTENSIONS.any
            (fun e => strEndsWith (lowerString d.url) e) = true
          ∨ d.type = "media"))
    ∧ (¬ (VIDEO_EXTENSIONS.any
            (fun e => strEndsWith (lowerString d.url) e) = true
          ∨ d.type = "media") →
        onBeforeRequest store d now = (store, none))
    ∧ (onBeforeRequest store mediaRequest now).2
        = some (networkVideoInfo mediaRequest now)
    ∧ onBeforeRequest store pageRequest now = (store, none) := by
  have hself : isSelfRequest d = false := isSelfRequest_eq_false hinit
  have hclass : classifiesMedia d = true ↔
      (VIDEO_EXTENSIONS.any
          (fun e => strEndsWith (lowerString d.url) e) = true
        ∨ d.type = "media") := by
    unfold classifiesMedia
    rw [Bool.or_eq_true, beq_iff_eq]
  have hrej : ¬ (VIDEO_EXTENSIONS.any
      (fun e => strEndsWith (lowerString d.url) e) = true
        ∨ d.type = "media") →
      onBeforeRequest store d now = (store, none) := by
    intro hc
    rw [← hclass] at hc
    have hcf : classifiesMedia d = false := by
      revert hc
      cases classifiesMedia d <;> simp
    exact onBeforeRequest_reject hself hcf store now
  refine ⟨⟨?_, ?_⟩, hrej, ?_, ?_⟩
  · intro heq
    by_contra hc
    rw [hrej hc] at heq
    injection heq with hfst hsnd
    cases hsnd
  · intro hc
    exact onBeforeRequest_accept hself (hclass.mpr hc) store now
  · rw [onBeforeRequest_accept (d := mediaRequest) (by decide) (by decide)
      store now]
  · exact onBeforeRequest_reject (d := pageRequest) (by decide) (by decide)
      store now

/-- Claim C4 witness: the iff applied at a concrete non-self request
carrying a `.m3u8` locator, and a concrete rejection of `page.html`. -/
theorem interceptor_classification_witness :
    (onBeforeRequest [] mediaRequest 0).2
        = some (networkVideoInfo mediaRequest 0)
    ∧ onBeforeRequest [] pageRequest 0 = ([], none) := by
  have h := interceptor_classification [] mediaRequest 0
      (by intro i hi; simp [mediaRequest] at hi)
  exact ⟨h.2.2.1, h.2.2.2⟩

/-- Claim C5: a request self-originated by the add-on is never
registered: whatever the locator suffix or type hint, the interceptor
performs no `put`, emits no notification, and leaves the registry
unchanged. -/
theorem self_origin_excluded
    (store : Store) (d : RequestDetails) (now : Nat) (i : String)
    (hi : d.initiator = some i)
    (hpfx : strStartsWith i "chrome-extension://" = true) :
    onBeforeRequest store d now = (store, none) := by
  unfold onBeforeRequest
  have hself : isSelfRequest d = true := by
    unfold isSelfRequest
    rw [hi]
    exact hpfx
  rw [hself]
  simp

/-- Claim C5 witness: a self-originated request with a `.m3u8` locator
and a `media` type hint is dropped and the store is unchanged. -/
theorem self_origin_excluded_witness :
    onBeforeRequest [] selfRequest 0 = ([], none) :=
  self_origin_excluded [] selfRequest 0 "chrome-extension://abcdef" rfl
    (by decide)

/-- Claim C6: for every locator, `download(locator, "")` produces the
same effective filename as `download(locator, undefined)`, and both equal
the Filename Deriver output: with an empty or absent suggested name the
download handler invokes the host download facility with
`getFilenameFromUrl locator`. -/
theorem download_fallback_naming
    (store : Store) (url : String) (platform : Except String Nat) :
    (handleDownloadVideo store url (some "") platform).2.1
        = (handleDownloadVideo store url none platform).2.1
    ∧ (handleDownloadVideo store url (some "") platform).2.1
        = [⟨url, getFilenameFromUrl url, true⟩]
    ∧ effectiveFilename url (some "") = getFilenameFromUrl url
    ∧ effectiveFilename url none = getFilenameFromUrl url := by
  cases platform <;> simp [handleDownloadVideo, effectiveFilename]

/-- Claim C8: when the host download facility fails, the handler reports
a typed failure response carrying the human-readable cause, dispatches
exactly one download call (no automatic retry), and leaves the registry
untouched (the handler is a total function, so the registry owner cannot
crash). -/
theorem download_failure_reporting
    (store : Store) (url : String) (suggested : Option String)
    (msg : String) :
    handleDownloadVideo store url suggested (Except.error msg)
        = (store, [⟨url, effectiveFilename url suggested, true⟩],
            ⟨false, none, some msg⟩)
    ∧ (handleDownloadVideo store url suggested (Except.error msg)).1
        = store
    ∧ ((handleDownloadVideo store url suggested (Except.error msg)).2.1).length
        = 1
    ∧ (handleDownloadVideo store url suggested (Except.error msg)).2.2.error
        = some msg :=
  ⟨rfl, rfl, rfl, rfl⟩

/-- Claim C7: a `put` occurring while zero UI subscribers are attached
still succeeds: the record is stored, the notification fan-out delivers
to nobody (dropped silently, no queue and no error), and `getAll()`
subsequently returns the stored record. -/
theorem put_with_zero_subscribers
    (store : Store) (e : DetectionEvent) (now : Nat) (s' : Store)
    (vi : VideoInfo) (h : stepEvent store e now = (s', some vi)) :
    notifyVideoDetected [] vi = []
    ∧ mapGet s' vi.url = some vi
    ∧ vi ∈ getVideos s' := by
  have hput := stepEvent_put h
  have hget : mapGet s' vi.url = some vi := by
    rw [hput]
    exact mapGet_mapSet_self store vi.url vi
  exact ⟨rfl, hget, mapGet_mem_getVideos hget⟩

/-- Claim C7 witness: a concrete page-feed `put` on the empty store with
no subscribers attached; the record is stored and retrievable. -/
theorem put_with_zero_subscribers_witness :
    notifyVideoDetected [] (pageVideoInfo lonePutMsg (some 4) 11) = []
    ∧ mapGet lonePutStore "https://v.test/solo.webm"
        = some (pageVideoInfo lonePutMsg (some 4) 11) := by
  have h := put_with_zero_subscribers [] (.page lonePutMsg (some 4)) 11
      lonePutStore (pageVideoInfo lonePutMsg (some 4) 11) (by decide)
  exact ⟨h.1, h.2.1⟩

/-- Claim C9: the Page Observer tags every element it scans (in
particular every element whose locator is unknown at scan time) and
attaches a completion listener that re-emits a detection once the source
resolves; across any number of scans (initial, mutation-triggered and
periodic all run the same `checkVideosOnPage`), at most one such listener
is ever attached to any given element. -/
theorem page_observer_listener_once
    (vs : List PageVideo) (hfresh : ∀ v ∈ vs, FreshVideo v) :
    (∀ n, ∀ v ∈ scanN n vs, v.listeners ≤ 1)
    ∧ (∀ n, 1 ≤ n → ∀ v ∈ scanN n vs, v.tagged = true ∧ v.listeners = 1)
    ∧ (∀ v ∈ vs, v.src = none →
        ∀ u : String,
          fireLoadedMetadata { scanVideoStep v with src := some u } = [u]) := by
  have hsucc : ∀ m, scanN (m + 1) vs = checkVideosOnPage vs := by
    intro m
    show scanN m (checkVideosOnPage vs) = checkVideosOnPage vs
    exact scanN_of_all_tagged (checkVideosOnPage_tagged vs) m
  refine ⟨?_, ?_, ?_⟩
  · intro n
    cases n with
    | zero =>
      intro v hv
      have h0 := (hfresh v hv).2
      rw [h0]
      decide
    | succ m =>
      intro v hv
      rw [hsucc m] at hv
      rw [(checkVideosOnPage_fresh hfresh v hv).2]
  · intro n hn
    cases n with
    | zero => exact absurd hn (by decide)
    | succ m =>
      intro v hv
      rw [hsucc m] at hv
      exact checkVideosOnPage_fresh hfresh v hv
  · intro v hv hsrc u
    obtain ⟨ht, hl⟩ := hfresh v hv
    unfold scanVideoStep
    rw [ht]
    simp [fireLoadedMetadata, hl]

/-- Claim C9 witness: a concrete pair of elements (one with an unknown
source) scanned three times; every element carries at most one listener,
and the tagged late element re-emits exactly one detection once its
source resolves. -/
theorem page_observer_listener_once_witness :
    (∀ v ∈ scanN 3 samplePageVideos, v.listeners ≤ 1)
    ∧ fireLoadedMetadata
        { scanVideoStep latePageVideo with src := some "https://v.test/late.mp4" }
        = ["https://v.test/late.mp4"] := by
  have h := page_observer_listener_once samplePageVideos (by decide)
  exact ⟨h.1 3, h.2.2 latePageVideo (by decide) rfl "https://v.test/late.mp4"⟩

/-- Claim C10 counterexample: the claim quantifies over every locator
whose final path segment ends with an uppercase variant of a recognized
suffix, but a locator with a query string after such a segment is not
accepted by the interceptor: for `"https://x.test/A.MP4?t=1"` the final
path segment `"A.MP4"` ends with `".MP4"` (an uppercase variant of the
recognized suffix `".mp4"`), yet the lowercased locator ends in `"t=1"`,
so with no streamed-media hint the interceptor performs no `put`. -/
theorem interceptor_case_mismatch_counterexample :
    (parseURL "https://x.test/A.MP4?t=1").map
        (fun p => String.mk (cleanedSegment p)) = some "A.MP4"
    ∧ strEndsWith "A.MP4" ".MP4" = true
    ∧ lowerString ".MP4" = ".mp4"
    ∧ ".mp4" ∈ VIDEO_EXTENSIONS
    ∧ getFilenameFromUrl "https://x.test/A.MP4?t=1" = "A.MP4.mp4"
    ∧ onBeforeRequest [] upperQueryRequest 0 = ([], none) := by
  refine ⟨by decide, by decide, by decide, by decide, by decide, ?_⟩
  exact onBeforeRequest_reject (by decide) (by decide) [] 0

/-- Claim C10 (amended): the Filename Deriver's recognized-suffix check
is case-sensitive while the Network Interceptor classifies against the
lowercased locator; so for every non-self request whose lowercased
locator ends with a recognized suffix while the derived final path
segment fails the case-sensitive suffix check (e.g. a locator ending in
an uppercase variant such as `"https://x.test/A.MP4"`), the interceptor
accepts it as a media candidate, yet the deriver appends `".mp4"` to the
segment, producing a doubled extension. -/
theorem interceptor_case_mismatch
    (store : Store) (d : RequestDetails) (now : Nat) (parts : URLParts)
    (hinit : ∀ i, d.initiator = some i →
      strStartsWith i "chrome-extension://" = false)
    (hparse : parseURL d.url = some parts)
    (hlow : VIDEO_EXTENSIONS.any
      (fun e => strEndsWith (lowerString d.url) e) = true)
    (hseg : hasVideoExt (cleanedSegment parts) = false) :
    onBeforeRequest store d now
      = (mapSet store d.url (networkVideoInfo d now),
          some (networkVideoInfo d now))
    ∧ (networkVideoInfo d now).filename
        = String.mk (cleanedSegment parts ++ ".mp4".data) := by
  have hself : isSelfRequest d = false := isSelfRequest_eq_false hinit
  have hc : classifiesMedia d = true := by
    unfold classifiesMedia
    rw [hlow]
    simp
  refine ⟨onBeforeRequest_accept hself hc store now, ?_⟩
  show getFilenameFromUrl d.url = _
  unfold getFilenameFromUrl
  rw [hparse]
  simp [filenameFromParts, hseg]

/-- Claim C10 witness: the concrete locator `"https://x.test/A.MP4"` is
accepted by the interceptor and derives the doubled name
`"A.MP4.mp4"`. -/
theorem interceptor_case_mismatch_witness :
    (onBeforeRequest [] upperRequest 0).2
        = some (networkVideoInfo upperRequest 0)
    ∧ (networkVideoInfo upperRequest 0).filename = "A.MP4.mp4" := by
  have h := interceptor_case_mismatch [] upperRequest 0 ⟨"/A.MP4"⟩
      (by intro i hi; simp [upperRequest] at hi)
      (by decide) (by decide) (by decide)
  refine ⟨?_, ?_⟩
  · rw [h.1]
  · rw [h.2]
    decide

end PixelSeek
